import Mathlib

/-!
Verification development for the numerical core of a Digital Image Correlation
(DIC) subset tracker (source file dic.py).  Each definition below is a shallow
embedding of one source function.  Real-valued float arithmetic is modelled by
exact arithmetic over the reals (for functions using trigonometry or square
roots) or over the rationals (for functions whose claims need concrete
evaluation); machine-float rounding is outside the model.  Images are modelled
as matrices indexed by their shape, except where a claim is about untyped
shape handling, in which case arrays carry an explicit shape.
-/

open scoped BigOperators

namespace DIC

open Classical

/-- Embedding of numpy mean over an m×n image: the sum of all entries divided
by the pixel count.  (For an empty image the real division by zero yields 0
where numpy would produce NaN; all claims are used on nonempty images.) -/
noncomputable def meanR {m n : ℕ} (A : Matrix (Fin m) (Fin n) ℝ) : ℝ :=
  (∑ i, ∑ j, A i j) / ((m : ℝ) * (n : ℝ))

/-- Embedding of numpy variance: mean of squared deviations from the mean. -/
noncomputable def varR {m n : ℕ} (A : Matrix (Fin m) (Fin n) ℝ) : ℝ :=
  meanR (Matrix.of fun i j => (A i j - meanR A) ^ 2)

/-- Embedding of numpy std: square root of the variance. -/
noncomputable def stdR {m n : ℕ} (A : Matrix (Fin m) (Fin n) ℝ) : ℝ :=
  Real.sqrt (varR A)

/-- Embedding of `zncc(im1, im2)` from dic.py: the mean of the product of the
two zero-centred images divided by the product of their standard deviations,
with the result defined to be 0 when that product of standard deviations is 0.
The source returns normally in the degenerate branch; there is no error path. -/
noncomputable def zncc {m n : ℕ} (im1 im2 : Matrix (Fin m) (Fin n) ℝ) : ℝ :=
  let nom := meanR (Matrix.of fun i j => (im1 i j - meanR im1) * (im2 i j - meanR im2))
  let den := stdR im1 * stdR im2
  if den = 0 then 0 else nom / den

/-- Embedding of `get_error_image(f, f_stats, g)` from dic.py: the ZNSSD error
image `(f - mean_f) - (std_f / std_g) * (g - mean_g)`.  The source performs the
division unconditionally; there is no check on `std_g` and no error path.  When
`stdR g = 0` Lean's division by zero yields 0 where IEEE floats would give
inf/NaN entries; either way the function returns an image, it never raises. -/
noncomputable def get_error_image {m n : ℕ} (f : Matrix (Fin m) (Fin n) ℝ)
    (f_stats : ℝ × ℝ) (g : Matrix (Fin m) (Fin n) ℝ) : Matrix (Fin m) (Fin n) ℝ :=
  Matrix.of fun i j => (f i j - f_stats.1) - f_stats.2 / stdR g * (g i j - meanR g)

/-- Embedding of `rigid_transform_matrix(p)` from dic.py: the homogeneous
rigid-body warp matrix for parameters `p = (vy, ux, phi)`. -/
noncomputable def rigid_transform_matrix (p : Fin 3 → ℝ) : Matrix (Fin 3) (Fin 3) ℝ :=
  Matrix.of ![![Real.cos (p 2), -Real.sin (p 2), p 1],
              ![Real.sin (p 2), Real.cos (p 2), p 0],
              ![0, 0, 1]]

/-- Embedding of `param_from_rt_matrix(matrix)` from dic.py: translations are
read from the last column and the angle is recovered as arcsine of the sine
entry.  The source wraps the arcsine in a try/except falling back to arccosine
on ValueError, but numpy's arcsin does not raise ValueError on any float input
(out-of-domain inputs produce NaN), so the fallback branch is dead code and is
not modelled; Lean's Real.arcsin agrees with numpy's on the domain [-1, 1],
which covers every matrix produced by rigid_transform_matrix. -/
noncomputable def param_from_rt_matrix (M : Matrix (Fin 3) (Fin 3) ℝ) : Fin 3 → ℝ :=
  ![M 1 2, M 0 2, Real.arcsin (M 1 0)]

/-- Embedding of `coordinate_warp(matrix, output_shape)` from dic.py.  The
canonical row-major grid of an h×w frame is built from
`np.tile(np.arange(w), h)` (flat index k holds column k % w) and
`np.repeat(np.arange(h), w)` (flat index k holds row k / w); a row of ones is
stacked below, the 3×3 warp matrix multiplies the 3×(h·w) stack, and the first
two rows of the product are returned as the (x, y) coordinate arrays. -/
noncomputable def coordinate_warp (M : Matrix (Fin 3) (Fin 3) ℝ) (h w : ℕ) :
    (Fin (h * w) → ℝ) × (Fin (h * w) → ℝ) :=
  let x_array : Fin (h * w) → ℝ := fun k => (((k : ℕ) % w : ℕ) : ℝ)
  let y_array : Fin (h * w) → ℝ := fun k => (((k : ℕ) / w : ℕ) : ℝ)
  let xy_h : Matrix (Fin 3) (Fin (h * w)) ℝ := Matrix.of ![x_array, y_array, fun _ => 1]
  let uv_h := M * xy_h
  (fun k => uv_h 0 k, fun k => uv_h 1 k)

/-- Embedding of `warp_update(inv_H, b, warp)` from dic.py: the parameter
increment is `dp = inv_H · b`, the incremental rigid warp matrix of `dp` is
inverted (Matrix.inv embeds np.linalg.inv on invertible inputs) and
right-composed onto the current warp. -/
noncomputable def warp_update (inv_H : Matrix (Fin 3) (Fin 3) ℝ) (b : Fin 3 → ℝ)
    (warp : Matrix (Fin 3) (Fin 3) ℝ) : Matrix (Fin 3) (Fin 3) ℝ :=
  let dp := inv_H.mulVec b
  let inverse_increment_warp := (rigid_transform_matrix dp)⁻¹
  warp * inverse_increment_warp

/-- Embedding of `hessian(sd_im, n_param)` from dic.py.  The source loops over
all (i, j): for j ≥ i it stores the pixel sum of sd_i·sd_j, and for j < i it
copies the already-computed entry H[j, i], whose value is the pixel sum of
sd_j·sd_i; the embedding records the final value of each entry. -/
noncomputable def hessian {np h w : ℕ} (sd_im : Fin np → Matrix (Fin h) (Fin w) ℝ) :
    Matrix (Fin np) (Fin np) ℝ :=
  Matrix.of fun i j =>
    if (i : ℕ) ≤ (j : ℕ) then ∑ a, ∑ b, sd_im i a b * sd_im j a b
    else ∑ a, ∑ b, sd_im j a b * sd_im i a b

/-- Embedding of `get_sd_error_vector(sd_im, error_im, n_param)` from dic.py:
entry i is the pixel sum of sd_i times the error image. -/
noncomputable def get_sd_error_vector {np h w : ℕ}
    (sd_im : Fin np → Matrix (Fin h) (Fin w) ℝ)
    (error_im : Matrix (Fin h) (Fin w) ℝ) : Fin np → ℝ :=
  fun i => ∑ a, ∑ b, sd_im i a b * error_im a b

/-- Embedding of numpy mean over an h×w image given as an index function
(used by the rational-valued part of the model). -/
def meanQ (h w : ℕ) (a : ℕ → ℕ → ℚ) : ℚ :=
  (∑ i ∈ Finset.range h, ∑ j ∈ Finset.range w, a i j) / ((h : ℚ) * (w : ℚ))

/-- Embedding of `np.argmax` on a flattened surface of `n` values: scan the
flat indices in increasing (row-major) order, replacing the current best index
only on a strictly larger value, so the first occurrence of the maximum is
kept.  numpy's argmax returns the first occurrence of the maximum in the
flattened array, which is exactly this fold. -/
def argmaxFlat (vals : ℕ → ℚ) (n : ℕ) : ℕ :=
  (List.range n).foldl (fun best k => if vals best < vals k then k else best) 0

/-- Embedding of the correlation surface computed inside
`get_initial_guess(target, roi_image)` in dic.py.  The target and the ROI are
mean-centred and the ROI is reversed along both axes;
`scipy.signal.fftconvolve(·, ·, mode=valid)` (the opaque FFT convolution
facility) of images a (th×tw) and b (rh×rw) is the exact valid-mode
convolution `out[i, j] = Σ_{u<rh, v<rw} a[i+u, j+v] · b[rh-1-u, rw-1-v]`, of
shape (th-rh+1)×(tw-rw+1); `np.unravel_index(argmax, shape)` maps the
row-major flat argmax index k to `(k / ow, k % ow)`.  Returns the (row, col)
pair and the correlation surface. -/
def corr_surface (th tw rh rw : ℕ) (target roi : ℕ → ℕ → ℚ) : ℕ → ℕ → ℚ :=
  let tC : ℕ → ℕ → ℚ := fun i j => target i j - meanQ th tw target
  let rC : ℕ → ℕ → ℚ := fun u v => roi (rh - 1 - u) (rw - 1 - v) - meanQ rh rw roi
  fun i j =>
    ∑ u ∈ Finset.range rh, ∑ v ∈ Finset.range rw,
      tC (i + u) (j + v) * rC (rh - 1 - u) (rw - 1 - v)

/-- The index part of `get_initial_guess`: the flat row-major argmax of the
correlation surface, unravelled to (row, col) by `np.unravel_index`, returned
together with the surface. -/
def get_initial_guess (th tw rh rw : ℕ) (target roi : ℕ → ℕ → ℚ) :
    (ℕ × ℕ) × (ℕ → ℕ → ℚ) :=
  let corr_fft := corr_surface th tw rh rw target roi
  let ow := tw - rw + 1
  let oh := th - rh + 1
  let k := argmaxFlat (fun k => corr_fft (k / ow) (k % ow)) (oh * ow)
  ((k / ow, k % ow), corr_fft)

/-- The kernel argument of `get_gradient`: either the default string
`central_fd`, or a caller-supplied custom kernel specification given as a list
of kernel rows (each a list of taps), of which the source reads `kernel[0]`
and `kernel[1]`. -/
inductive KernelArg where
  | central_fd : KernelArg
  | custom : List (List ℚ) → KernelArg

/-- An untyped numpy array argument as handed to the convolution facility:
either a 1-D array (a bare row of taps, which is what `kernel[0]` of a custom
row-list specification is) or a 2-D array (like the default kernels of shape
(1, 5) and (5, 1)). -/
inductive NDArr where
  | arr1 : List ℚ → NDArr
  | arr2 : List (List ℚ) → NDArr

/-- `scipy.signal.convolve2d(image, kernel, mode=same)` restricted to its
contract: convolve2d requires both inputs to be 2-D arrays and raises
ValueError (`none`) on a 1-D kernel.  The numerical content on 2-D kernels is
an opaque facility and is passed in as `conv2same`. -/
def convolve2d (conv2same : (ℕ → ℕ → ℚ) → List (List ℚ) → (ℕ → ℕ → ℚ))
    (image : ℕ → ℕ → ℚ) : NDArr → Option (ℕ → ℕ → ℚ)
  | NDArr.arr1 _ => none
  | NDArr.arr2 rows => some (conv2same image rows)

/-- Embedding of `get_gradient(image, kernel, prefilter_gauss)` from dic.py.
The kernel-selection logic is embedded exactly: the default branch picks the
5-tap Gauss-prefiltered or plain central-finite-difference row (a 2-D array
of shape (1, 5)) and its transpose; a custom specification passes validation
if and only if it has exactly 2 rows (`len(kernel) == 2`) and its FIRST row
has at least 3 taps (`len(kernel[0]) >= 3`), anything else raising ValueError
(`none`) — the second row's length is never inspected by the validation.  The
selected `kernel[0]`/`kernel[1]` are then passed RAW to convolve2d, exactly
as in the source, so a custom row (a 1-D array) is rejected there by
convolve2d's 2-D-only contract; errors propagate (`Option.bind`), and no
default kernel is ever substituted for a rejected one. -/
def get_gradient (conv2same : (ℕ → ℕ → ℚ) → List (List ℚ) → (ℕ → ℕ → ℚ))
    (image : ℕ → ℕ → ℚ) (kernel : KernelArg) (prefilter_gauss : Bool) :
    Option ((ℕ → ℕ → ℚ) × (ℕ → ℕ → ℚ)) :=
  match kernel with
  | KernelArg.central_fd =>
    let x_kernel : List (List ℚ) :=
      if prefilter_gauss then
        [[-(14086616 / 100000000), -(20863973 / 100000000), 0,
          20863973 / 100000000, 14086616 / 100000000]]
      else
        [[1 / 12, -8 / 12, 0, 8 / 12, -1 / 12]]
    let y_kernel := x_kernel.transpose
    (convolve2d conv2same image (NDArr.arr2 x_kernel)).bind fun g_x =>
      (convolve2d conv2same image (NDArr.arr2 y_kernel)).bind fun g_y =>
        some (g_x, g_y)
  | KernelArg.custom [k0, k1] =>
    if 3 ≤ k0.length then
      (convolve2d conv2same image (NDArr.arr1 k0)).bind fun g_x =>
        (convolve2d conv2same image (NDArr.arr1 k1)).bind fun g_y =>
          some (g_x, g_y)
    else none
  | KernelArg.custom _ => none

/-- A numpy-style untyped 2-D array: an explicit shape and an index function
(entries outside the shape are never read). -/
structure Arr2 where
  h : ℕ
  w : ℕ
  data : ℕ → ℕ → ℚ

/-- A numpy-style untyped 3-D array (a stack of 2-D arrays). -/
structure Arr3 where
  p : ℕ
  h : ℕ
  w : ℕ
  data : ℕ → ℕ → ℕ → ℚ

/-- numpy broadcasting of one axis: two sizes are compatible when they are
equal or one of them is 1, in which case the broadcast size is the larger;
otherwise the operation raises ValueError (`none`). -/
def bdim (a b : ℕ) : Option ℕ :=
  if a = b then some a else if a = 1 then some b else if b = 1 then some a else none

/-- numpy elementwise product of a 2-D and a 3-D array: the 2-D shape is
aligned with the trailing two axes of the 3-D shape and each axis is
broadcast; an axis of size 1 is read at index 0. -/
def mul23 (a : Arr2) (b : Arr3) : Option Arr3 :=
  match bdim a.h b.h, bdim a.w b.w with
  | some bh, some bw =>
    some ⟨b.p, bh, bw, fun i j k =>
      a.data (if a.h = 1 then 0 else j) (if a.w = 1 then 0 else k) *
      b.data i (if b.h = 1 then 0 else j) (if b.w = 1 then 0 else k)⟩
  | _, _ => none

/-- numpy elementwise sum of two 3-D arrays with broadcasting on each axis. -/
def add33 (a b : Arr3) : Option Arr3 :=
  match bdim a.p b.p, bdim a.h b.h, bdim a.w b.w with
  | some bp, some bh, some bw =>
    some ⟨bp, bh, bw, fun i j k =>
      a.data (if a.p = 1 then 0 else i) (if a.h = 1 then 0 else j)
        (if a.w = 1 then 0 else k) +
      b.data (if b.p = 1 then 0 else i) (if b.h = 1 then 0 else j)
        (if b.w = 1 then 0 else k)⟩
  | _, _, _ => none

/-- Embedding of `sd_images(grad, jac)` from dic.py at the untyped numpy
level: `sd_x = gx * jx`, `sd_y = gy * jy`, `sd_image = sd_x + sd_y`, each an
elementwise numpy operation that broadcasts compatible shapes and raises
ValueError (`none`) on incompatible ones. -/
def sd_images (gx gy : Arr2) (jx jy : Arr3) : Option Arr3 :=
  (mul23 gx jx).bind fun sd_x =>
    (mul23 gy jy).bind fun sd_y =>
      add33 sd_x sd_y

/-- Embedding of `interpolate_warp(xi, yi, target, output_shape, spl, order)`
from dic.py at the untyped numpy level.  The bivariate-spline facility (fit
from `target` when `spl` is None, or supplied by the caller) is opaque and is
passed in as the evaluator `ev`; `spl.ev(yi, xi)` broadcasts its two 1-D
argument arrays against each other (an array of length 1 is read at index 0),
producing a flat value array of the broadcast length, and
`values.reshape(output_shape)` raises ValueError (`none`) unless that length
equals the product of `output_shape`.  Returns the row-major values of the
reshaped ROI. -/
def interpolate_warp (xi yi : List ℚ) (ev : ℚ → ℚ → ℚ)
    (output_shape : ℕ × ℕ) : Option (List ℚ) :=
  match bdim yi.length xi.length with
  | none => none
  | some n =>
    let values := (List.range n).map fun k =>
      ev (yi.getD (if yi.length = 1 then 0 else k) 0)
         (xi.getD (if xi.length = 1 then 0 else k) 0)
    if n = output_shape.1 * output_shape.2 then some values else none

/-! ### Helper lemmas -/

/-- The rigid transform matrix of the zero parameter vector is the identity. -/
lemma rigid_transform_matrix_zero : rigid_transform_matrix 0 = 1 := by
  unfold rigid_transform_matrix
  ext i j
  fin_cases i <;> fin_cases j <;>
    simp [Matrix.one_apply, Matrix.cons_val_zero, Matrix.cons_val_one, Matrix.head_cons,
      Matrix.vecHead, Matrix.vecTail, Pi.zero_apply, Function.comp]

/-- The variance of an image is nonnegative. -/
lemma varR_nonneg {m n : ℕ} (A : Matrix (Fin m) (Fin n) ℝ) : 0 ≤ varR A := by
  unfold varR meanR
  apply div_nonneg
  · apply Finset.sum_nonneg
    intro i _
    apply Finset.sum_nonneg
    intro j _
    simp only [Matrix.of_apply]
    positivity
  · exact mul_nonneg (Nat.cast_nonneg m) (Nat.cast_nonneg n)

/-- A constant image has standard deviation zero. -/
lemma stdR_const {m n : ℕ} (A : Matrix (Fin m) (Fin n) ℝ) (c : ℝ)
    (h : ∀ i j, A i j = c) : stdR A = 0 := by
  have hvar : varR A = 0 := by
    rcases eq_or_ne ((m : ℝ) * (n : ℝ)) 0 with hmn | hmn
    · rcases mul_eq_zero.mp hmn with hm | hn
      · have hm0 : m = 0 := Nat.cast_eq_zero.mp hm
        subst hm0
        unfold varR meanR
        simp
      · have hn0 : n = 0 := Nat.cast_eq_zero.mp hn
        subst hn0
        unfold varR meanR
        simp
    · have hmean : meanR A = c := by
        unfold meanR
        have hsum : (∑ i, ∑ j, A i j) = (m : ℝ) * (n : ℝ) * c := by
          simp [h, Finset.sum_const, mul_assoc]
        rw [hsum, mul_comm ((m : ℝ) * (n : ℝ)) c, mul_div_assoc, div_self hmn, mul_one]
      unfold varR
      have hz : (Matrix.of fun i j => (A i j - meanR A) ^ 2) =
          (Matrix.of fun _ _ => (0 : ℝ) : Matrix (Fin m) (Fin n) ℝ) := by
        ext i j
        rw [Matrix.of_apply, Matrix.of_apply, h i j, hmean]
        ring
      rw [hz]
      unfold meanR
      simp
  unfold stdR
  rw [hvar, Real.sqrt_zero]

/-! ### Claim theorems -/

/-- C6: for every steepest-descent image set, the matrix returned by `hessian`
is exactly symmetric: `H[i, j] = H[j, i]` for all indices, the upper triangle
holding the pixel sums of sd_i·sd_j and the lower triangle being mirrored from
it. -/
theorem hessian_symmetric {np h w : ℕ} (sd_im : Fin np → Matrix (Fin h) (Fin w) ℝ)
    (i j : Fin np) : hessian sd_im i j = hessian sd_im j i := by
  unfold hessian
  simp only [Matrix.of_apply]
  by_cases h1 : (i : ℕ) ≤ (j : ℕ) <;> by_cases h2 : (j : ℕ) ≤ (i : ℕ)
  · have hij : i = j := Fin.ext (le_antisymm h1 h2)
    subst hij
    rfl
  · rw [if_pos h1, if_neg h2]
  · rw [if_neg h1, if_pos h2]
  · omega

/-- C9: `coordinate_warp` applied to the 3×3 identity matrix returns the
canonical row-major coordinate grid unchanged: at every flat index k the
x-array holds the column index k % w and the y-array holds the row index
k / w. -/
theorem coordinate_warp_identity (h w : ℕ) (k : Fin (h * w)) :
    (coordinate_warp 1 h w).1 k = (((k : ℕ) % w : ℕ) : ℝ) ∧
    (coordinate_warp 1 h w).2 k = (((k : ℕ) / w : ℕ) : ℝ) := by
  unfold coordinate_warp
  constructor <;>
    simp [Matrix.one_mul, Matrix.cons_val_zero, Matrix.cons_val_one, Matrix.head_cons]

/-- C2: `warp_update(inv_H, 0, W)` is a no-op for any invertible `inv_H` and
any warp matrix `W`: `dp = inv_H · 0 = 0`, the incremental rigid matrix of 0
is the identity, whose inverse is the identity, and `W · 1 = W`. -/
theorem warp_update_zero_vector (inv_H W : Matrix (Fin 3) (Fin 3) ℝ)
    (_h : IsUnit inv_H) : warp_update inv_H 0 W = W := by
  show W * (rigid_transform_matrix (inv_H.mulVec 0))⁻¹ = W
  rw [Matrix.mulVec_zero, rigid_transform_matrix_zero, inv_one, mul_one]

/-- C2 witness: the identity matrix is invertible and updating the identity
warp with the zero vector returns it unchanged. -/
theorem warp_update_zero_vector_witness :
    IsUnit (1 : Matrix (Fin 3) (Fin 3) ℝ) ∧ warp_update 1 0 1 = 1 :=
  ⟨isUnit_one, warp_update_zero_vector 1 1 isUnit_one⟩

/-- C1 counterexample: the round trip fails at p = (0, 0, π): the sine entry
of the matrix is sin π = 0, so the recovered angle is arcsin 0 = 0 ≠ π. -/
theorem param_roundtrip_counterexample :
    param_from_rt_matrix (rigid_transform_matrix ![0, 0, Real.pi]) ≠ ![0, 0, Real.pi] := by
  intro hEq
  have h2 := congrFun hEq 2
  simp [param_from_rt_matrix, rigid_transform_matrix, Real.sin_pi,
    Real.arcsin_zero, Matrix.cons_val_zero, Matrix.cons_val_one, Matrix.head_cons] at h2
  exact Real.pi_ne_zero h2.symm

/-- C1 (amended): for every rigid parameter vector whose rotation angle lies
in [-π/2, π/2] (the range of arcsine), applying `rigid_transform_matrix` and
then `param_from_rt_matrix` reproduces the vector exactly: the translations
are read back from the last column and the angle is arcsin (sin φ) = φ. -/
theorem param_from_rt_matrix_roundtrip (p : Fin 3 → ℝ)
    (h1 : -(Real.pi / 2) ≤ p 2) (h2 : p 2 ≤ Real.pi / 2) :
    param_from_rt_matrix (rigid_transform_matrix p) = p := by
  funext i
  fin_cases i <;>
    simp [param_from_rt_matrix, rigid_transform_matrix, Real.arcsin_sin h1 h2,
      Matrix.cons_val_zero, Matrix.cons_val_one, Matrix.head_cons]

/-- C1 witness: the round trip reproduces the vector (1, 2, 0), whose angle 0
lies in [-π/2, π/2]. -/
theorem param_from_rt_matrix_roundtrip_witness :
    -(Real.pi / 2) ≤ (![1, 2, 0] : Fin 3 → ℝ) 2 ∧
    (![1, 2, 0] : Fin 3 → ℝ) 2 ≤ Real.pi / 2 ∧
    param_from_rt_matrix (rigid_transform_matrix ![1, 2, 0]) = ![1, 2, 0] := by
  have hpi : (0 : ℝ) ≤ Real.pi / 2 := by positivity
  have h1 : -(Real.pi / 2) ≤ (![1, 2, 0] : Fin 3 → ℝ) 2 := by
    simp [Matrix.cons_val_zero, Matrix.cons_val_one, Matrix.head_cons]
    linarith
  have h2 : (![1, 2, 0] : Fin 3 → ℝ) 2 ≤ Real.pi / 2 := by
    simp [Matrix.cons_val_zero, Matrix.cons_val_one, Matrix.head_cons]
    linarith
  exact ⟨h1, h2, param_from_rt_matrix_roundtrip ![1, 2, 0] h1 h2⟩

/-- C4: `zncc` returns exactly 0 whenever either input image is
constant-valued (so its standard deviation is exactly zero); the function
returns this value normally — its degenerate branch is a plain return, not an
error. -/
theorem zncc_constant_zero {m n : ℕ} (im1 im2 : Matrix (Fin m) (Fin n) ℝ)
    (h : (∃ c, ∀ i j, im1 i j = c) ∨ (∃ c, ∀ i j, im2 i j = c)) :
    zncc im1 im2 = 0 := by
  unfold zncc
  rcases h with ⟨c, hc⟩ | ⟨c, hc⟩
  · have hs := stdR_const im1 c hc
    simp [hs]
  · have hs := stdR_const im2 c hc
    simp [hs]

/-- C4 witness: both inputs all-5 on a 2×2 grid; the result is 0. -/
theorem zncc_constant_zero_witness :
    ((∃ c : ℝ, ∀ i j, (Matrix.of fun _ _ => (5 : ℝ) : Matrix (Fin 2) (Fin 2) ℝ) i j = c) ∨
      (∃ c : ℝ, ∀ i j, (Matrix.of fun _ _ => (5 : ℝ) : Matrix (Fin 2) (Fin 2) ℝ) i j = c)) ∧
    zncc (Matrix.of fun _ _ => (5 : ℝ) : Matrix (Fin 2) (Fin 2) ℝ)
      (Matrix.of fun _ _ => (5 : ℝ)) = 0 :=
  ⟨Or.inl ⟨5, fun _ _ => rfl⟩,
   zncc_constant_zero _ _ (Or.inl ⟨5, fun _ _ => rfl⟩)⟩

/-- C5: for every image with nonzero variance, `zncc(im, im) = 1`: the
numerator is the variance and the denominator is the product of the two equal
standard deviations, i.e. the variance again. -/
theorem zncc_self_one {m n : ℕ} (A : Matrix (Fin m) (Fin n) ℝ)
    (h : varR A ≠ 0) : zncc A A = 1 := by
  have hnom : meanR (Matrix.of fun i j => (A i j - meanR A) * (A i j - meanR A)) = varR A := by
    unfold varR
    congr 1
    ext i j
    rw [Matrix.of_apply, Matrix.of_apply]
    ring
  have hden : stdR A * stdR A = varR A := Real.mul_self_sqrt (varR_nonneg A)
  show (if stdR A * stdR A = 0 then 0
    else meanR (Matrix.of fun i j => (A i j - meanR A) * (A i j - meanR A)) /
      (stdR A * stdR A)) = 1
  rw [hnom, hden, if_neg h, div_self h]

/-- C5 witness: the 1×2 image (0, 1) has variance 1/4 ≠ 0 and perfect
self-correlation 1. -/
theorem zncc_self_one_witness :
    varR (!![0, 1] : Matrix (Fin 1) (Fin 2) ℝ) ≠ 0 ∧
    zncc (!![0, 1] : Matrix (Fin 1) (Fin 2) ℝ) !![0, 1] = 1 := by
  have hv : varR (!![0, 1] : Matrix (Fin 1) (Fin 2) ℝ) = 1 / 4 := by
    unfold varR meanR
    simp [Fin.sum_univ_two, Matrix.cons_val_zero, Matrix.cons_val_one, Matrix.head_cons]
    norm_num
  have h : varR (!![0, 1] : Matrix (Fin 1) (Fin 2) ℝ) ≠ 0 := by
    rw [hv]
    norm_num
  exact ⟨h, zncc_self_one _ h⟩

/-- C3: evaluation of the code at the failing input (f = (0, 1), g = (3, 3)).
The current ROI sample g has standard deviation exactly 0, yet
`get_error_image` returns an image rather than raising any error: the source
divides by `std_g` unconditionally and has no error path (numpy propagates
inf/NaN entries silently; in this exact model the division by zero is the
convention 0/0 = 0, and the returned image is f centred by mean_f). -/
theorem get_error_image_no_error_on_zero_std :
    stdR (!![3, 3] : Matrix (Fin 1) (Fin 2) ℝ) = 0 ∧
    get_error_image (!![0, 1] : Matrix (Fin 1) (Fin 2) ℝ)
      (meanR (!![0, 1] : Matrix (Fin 1) (Fin 2) ℝ),
       stdR (!![0, 1] : Matrix (Fin 1) (Fin 2) ℝ))
      !![3, 3] = !![-(1 / 2), 1 / 2] := by
  have hs : stdR (!![3, 3] : Matrix (Fin 1) (Fin 2) ℝ) = 0 :=
    stdR_const _ 3 (by
      intro i j
      fin_cases i <;> fin_cases j <;>
        simp [Matrix.cons_val_zero, Matrix.cons_val_one, Matrix.head_cons])
  have hm : meanR (!![0, 1] : Matrix (Fin 1) (Fin 2) ℝ) = 1 / 2 := by
    unfold meanR
    simp [Fin.sum_univ_two, Matrix.cons_val_zero, Matrix.cons_val_one, Matrix.head_cons]
  refine ⟨hs, ?_⟩
  unfold get_error_image
  ext i j
  fin_cases i <;> fin_cases j <;>
    simp [hs, hm, Matrix.cons_val_zero, Matrix.cons_val_one, Matrix.head_cons] <;>
    norm_num

/-- C7: `get_gradient` fails with an invalid-argument condition whenever a
caller-supplied custom kernel specification has fewer than 2 rows or a kernel
row shorter than 3 taps, and it never silently substitutes a default kernel
for an invalid one.  Fewer than 2 rows (and in fact any row count other than
2, and a first row shorter than 3 taps) is rejected immediately by the
validation's ValueError; a 2-row specification that passes validation still
fails, because its rows are 1-D arrays handed raw to convolve2d, whose
2-D-only contract rejects them with ValueError before any gradient is
returned.  In every case the result is an error, never a gradient built from
a substituted default kernel. -/
theorem get_gradient_invalid_kernel_fails
    (conv2same : (ℕ → ℕ → ℚ) → List (List ℚ) → (ℕ → ℕ → ℚ))
    (image : ℕ → ℕ → ℚ) (rows : List (List ℚ)) (pf : Bool)
    (_h : rows.length < 2 ∨ ∃ r ∈ rows, r.length < 3) :
    get_gradient conv2same image (KernelArg.custom rows) pf = none := by
  rcases rows with _ | ⟨a, _ | ⟨b, _ | ⟨c, rest⟩⟩⟩
  · rfl
  · rfl
  · show (if 3 ≤ a.length then
        (convolve2d conv2same image (NDArr.arr1 a)).bind fun g_x =>
          (convolve2d conv2same image (NDArr.arr1 b)).bind fun g_y =>
            some (g_x, g_y)
      else none) = none
    rcases le_or_lt 3 a.length with hk | hk
    · rw [if_pos hk]
      rfl
    · rw [if_neg (by omega)]
  · rfl

/-- C7 witness: the custom specification [[1,2,3],[1]] has a row shorter than
3 taps; it passes the source's validation (which only inspects the first
row) but `get_gradient` still fails when convolve2d rejects the raw 1-D
kernel row. -/
theorem get_gradient_invalid_kernel_fails_witness :
    (([[1, 2, 3], [1]] : List (List ℚ)).length < 2 ∨
      ∃ r ∈ ([[1, 2, 3], [1]] : List (List ℚ)), r.length < 3) ∧
    get_gradient (fun img _ => img) (fun _ _ => 0)
      (KernelArg.custom [[1, 2, 3], [1]]) true = none :=
  ⟨Or.inr (by decide),
   get_gradient_invalid_kernel_fails _ _ _ _ (Or.inr (by decide))⟩

/-- C8 counterexample: both halves of the claim fail on broadcast-compatible
mismatches.  A gradient of shape (1, 3) differs from the (2, 3) positional
axes of the Jacobian, yet `sd_images` succeeds by numpy broadcasting of the
size-1 axis; and a yi coordinate array of length 1 differs from the product 4
of output_shape (2, 2), yet `interpolate_warp` succeeds because `spl.ev`
broadcasts the length-1 array against the length-4 one. -/
theorem shape_mismatch_counterexample :
    (sd_images ⟨1, 3, fun _ _ => 1⟩ ⟨1, 3, fun _ _ => 1⟩
      ⟨3, 2, 3, fun _ _ _ => 1⟩ ⟨3, 2, 3, fun _ _ _ => 1⟩).isSome = true ∧
    (interpolate_warp [0, 1, 2, 3] [0] (fun a b => a + b) (2, 2)).isSome = true :=
  ⟨rfl, rfl⟩

/-- C8 (amended): the operations fail fast exactly on shape mismatches that
numpy cannot broadcast: `sd_images` fails whenever a gradient axis and the
corresponding positional Jacobian axis are not broadcast-compatible (neither
equal nor of size 1), and `interpolate_warp` fails whenever the broadcast
length of the coordinate arrays is undefined or differs from the product of
`output_shape`; mismatches involving a size-1 axis are silently broadcast
instead of failing. -/
theorem shape_mismatch_fails :
    (∀ gx gy jx jy, (bdim gx.h jx.h = none ∨ bdim gx.w jx.w = none ∨
        bdim gy.h jy.h = none ∨ bdim gy.w jy.w = none) →
      sd_images gx gy jx jy = none) ∧
    (∀ xi yi ev os, (∀ n, bdim yi.length xi.length = some n → n ≠ os.1 * os.2) →
      interpolate_warp xi yi ev os = none) := by
  constructor
  · intro gx gy jx jy h
    have hx : (bdim gx.h jx.h = none ∨ bdim gx.w jx.w = none) → mul23 gx jx = none := by
      intro hxy
      unfold mul23
      rcases hxy with hh | hw
      · rw [hh]
      · rw [hw]
        cases bdim gx.h jx.h <;> rfl
    have hy : (bdim gy.h jy.h = none ∨ bdim gy.w jy.w = none) → mul23 gy jy = none := by
      intro hxy
      unfold mul23
      rcases hxy with hh | hw
      · rw [hh]
      · rw [hw]
        cases bdim gy.h jy.h <;> rfl
    rcases h with h | h | h | h
    · simp [sd_images, hx (Or.inl h)]
    · simp [sd_images, hx (Or.inr h)]
    · cases hgx : mul23 gx jx <;> simp [sd_images, hgx, hy (Or.inl h)]
    · cases hgx : mul23 gx jx <;> simp [sd_images, hgx, hy (Or.inr h)]
  · intro xi yi ev os h
    unfold interpolate_warp
    cases hb : bdim yi.length xi.length with
    | none => rfl
    | some n => exact if_neg (h n hb)

/-- C8 witness: a non-broadcastable gradient/Jacobian mismatch (2 vs 4) makes
`sd_images` fail, and coordinate arrays of broadcast length 2 with an
output_shape product of 3 make `interpolate_warp` fail. -/
theorem shape_mismatch_fails_witness :
    bdim 2 4 = none ∧
    sd_images ⟨2, 3, fun _ _ => 0⟩ ⟨2, 3, fun _ _ => 0⟩
      ⟨1, 4, 3, fun _ _ _ => 0⟩ ⟨1, 4, 3, fun _ _ _ => 0⟩ = none ∧
    interpolate_warp [0, 1] [0, 1] (fun a b => a + b) (1, 3) = none :=
  ⟨rfl,
   shape_mismatch_fails.1 _ _ _ _ (Or.inl rfl),
   shape_mismatch_fails.2 _ _ _ _ (by
     intro n hn
     simp [bdim] at hn
     omega)⟩

/-- Unfolding of the argmax fold over one more flat index. -/
lemma argmaxFlat_succ (vals : ℕ → ℚ) (n : ℕ) :
    argmaxFlat vals (n + 1) =
      if vals (argmaxFlat vals n) < vals n then n else argmaxFlat vals n := by
  unfold argmaxFlat
  rw [List.range_succ, List.foldl_append]
  rfl

/-- The argmax fold returns an in-bounds index whose value is maximal, and
every strictly earlier flat index holds a strictly smaller value (it is the
first maximum in row-major order). -/
lemma argmaxFlat_spec (vals : ℕ → ℚ) :
    ∀ n, 0 < n →
      argmaxFlat vals n < n ∧
      (∀ j, j < n → vals j ≤ vals (argmaxFlat vals n)) ∧
      (∀ j, j < argmaxFlat vals n → vals j < vals (argmaxFlat vals n)) := by
  intro n
  induction n with
  | zero => intro hcon; exact absurd hcon (lt_irrefl 0)
  | succ m ih =>
    intro _
    rcases Nat.eq_zero_or_pos m with hm | hm
    · subst hm
      have h0 : argmaxFlat vals 1 = 0 := by
        rw [argmaxFlat_succ]
        have hz : argmaxFlat vals 0 = 0 := rfl
        rw [hz, if_neg (lt_irrefl _)]
      rw [h0]
      refine ⟨one_pos, ?_, ?_⟩
      · intro j hj
        have hj0 : j = 0 := by omega
        subst hj0
        exact le_refl _
      · intro j hj
        exact absurd hj (Nat.not_lt_zero j)
    · obtain ⟨hlt, hmax, hfirst⟩ := ih hm
      rw [argmaxFlat_succ]
      by_cases hc : vals (argmaxFlat vals m) < vals m
      · rw [if_pos hc]
        refine ⟨Nat.lt_succ_self m, ?_, ?_⟩
        · intro j hj
          rcases Nat.lt_succ_iff_lt_or_eq.mp hj with hj' | hj'
          · exact le_of_lt (lt_of_le_of_lt (hmax j hj') hc)
          · subst hj'
            exact le_refl _
        · intro j hj
          exact lt_of_le_of_lt (hmax j hj) hc
      · rw [if_neg hc]
        refine ⟨Nat.lt_succ_of_lt hlt, ?_, hfirst⟩
        intro j hj
        rcases Nat.lt_succ_iff_lt_or_eq.mp hj with hj' | hj'
        · exact hmax j hj'
        · subst hj'
          exact not_lt.mp hc

/-- C10: when the target is at least as large as the (nonempty) ROI in both
dimensions, `get_initial_guess` returns a (row, col) within the bounds of the
valid-mode correlation surface of shape (th-rh+1)×(tw-rw+1), its value is the
global maximum of the surface, and every position strictly earlier in
row-major order holds a strictly smaller value — so on ties the first maximum
in row-major order (smallest row, then smallest column) is returned. -/
theorem get_initial_guess_first_rowmajor_max (th tw rh rw : ℕ)
    (target roi : ℕ → ℕ → ℚ)
    (_hrh : 0 < rh) (_hth : rh ≤ th) (_hrw : 0 < rw) (_htw : rw ≤ tw) :
    (get_initial_guess th tw rh rw target roi).1.1 < th - rh + 1 ∧
    (get_initial_guess th tw rh rw target roi).1.2 < tw - rw + 1 ∧
    (∀ r' c', r' < th - rh + 1 → c' < tw - rw + 1 →
      (get_initial_guess th tw rh rw target roi).2 r' c' ≤
        (get_initial_guess th tw rh rw target roi).2
          (get_initial_guess th tw rh rw target roi).1.1
          (get_initial_guess th tw rh rw target roi).1.2) ∧
    (∀ r' c', r' < th - rh + 1 → c' < tw - rw + 1 →
      r' * (tw - rw + 1) + c' <
        (get_initial_guess th tw rh rw target roi).1.1 * (tw - rw + 1) +
          (get_initial_guess th tw rh rw target roi).1.2 →
      (get_initial_guess th tw rh rw target roi).2 r' c' <
        (get_initial_guess th tw rh rw target roi).2
          (get_initial_guess th tw rh rw target roi).1.1
          (get_initial_guess th tw rh rw target roi).1.2) := by
  set ow := tw - rw + 1 with how
  set oh := th - rh + 1 with hoh
  set corr := corr_surface th tw rh rw target roi with hcorr
  set vals : ℕ → ℚ := fun kk => corr (kk / ow) (kk % ow) with hvals
  set k := argmaxFlat vals (oh * ow) with hkdef
  have hgi : get_initial_guess th tw rh rw target roi = ((k / ow, k % ow), corr) := rfl
  have howpos : 0 < ow := Nat.succ_pos _
  have hohpos : 0 < oh := Nat.succ_pos _
  obtain ⟨hklt, hmax, hfirst⟩ := argmaxFlat_spec vals (oh * ow) (Nat.mul_pos hohpos howpos)
  rw [← hkdef] at hklt hmax hfirst
  have hvk : vals k = corr (k / ow) (k % ow) := rfl
  have hflat : ∀ r' c', c' < ow → (r' * ow + c') / ow = r' ∧ (r' * ow + c') % ow = c' := by
    intro r' c' hc
    constructor
    · rw [mul_comm, Nat.mul_add_div howpos, Nat.div_eq_of_lt hc, Nat.add_zero]
    · rw [mul_comm r' ow, Nat.mul_add_mod, Nat.mod_eq_of_lt hc]
  have hbound : ∀ r' c', r' < oh → c' < ow → r' * ow + c' < oh * ow := by
    intro r' c' hr hc
    calc r' * ow + c' < r' * ow + ow := by omega
    _ = (r' + 1) * ow := by ring
    _ ≤ oh * ow := Nat.mul_le_mul_right ow (by omega)
  rw [hgi]
  dsimp only
  refine ⟨?_, ?_, ?_, ?_⟩
  · refine Nat.div_lt_of_lt_mul ?_
    rw [mul_comm]
    exact hklt
  · exact Nat.mod_lt _ howpos
  · intro r' c' hr hc
    have h1 := hmax (r' * ow + c') (hbound r' c' hr hc)
    have h2 := hflat r' c' hc
    rw [hvals] at h1
    simp only at h1
    rw [h2.1, h2.2] at h1
    exact h1
  · intro r' c' hr hc hlt
    rw [Nat.div_add_mod' k ow] at hlt
    have h1 := hfirst (r' * ow + c') hlt
    have h2 := hflat r' c' hc
    rw [hvals] at h1
    simp only at h1
    rw [h2.1, h2.2] at h1
    exact h1

/-- C10 witness: a 2×2 target and a 1×1 ROI satisfy the size preconditions,
and the returned index is the first row-major maximum of the 2×2 correlation
surface. -/
theorem get_initial_guess_first_rowmajor_max_witness :
    (0 < 1 ∧ 1 ≤ 2 ∧ 0 < 1 ∧ 1 ≤ 2) ∧
    ((get_initial_guess 2 2 1 1 (fun i j => if i = 0 ∧ j = 0 then 1 else 0)
        (fun _ _ => 1)).1.1 < 2 - 1 + 1 ∧
     (get_initial_guess 2 2 1 1 (fun i j => if i = 0 ∧ j = 0 then 1 else 0)
        (fun _ _ => 1)).1.2 < 2 - 1 + 1 ∧
     (∀ r' c', r' < 2 - 1 + 1 → c' < 2 - 1 + 1 →
       (get_initial_guess 2 2 1 1 (fun i j => if i = 0 ∧ j = 0 then 1 else 0)
          (fun _ _ => 1)).2 r' c' ≤
         (get_initial_guess 2 2 1 1 (fun i j => if i = 0 ∧ j = 0 then 1 else 0)
            (fun _ _ => 1)).2
           (get_initial_guess 2 2 1 1 (fun i j => if i = 0 ∧ j = 0 then 1 else 0)
              (fun _ _ => 1)).1.1
           (get_initial_guess 2 2 1 1 (fun i j => if i = 0 ∧ j = 0 then 1 else 0)
              (fun _ _ => 1)).1.2) ∧
     (∀ r' c', r' < 2 - 1 + 1 → c' < 2 - 1 + 1 →
       r' * (2 - 1 + 1) + c' <
         (get_initial_guess 2 2 1 1 (fun i j => if i = 0 ∧ j = 0 then 1 else 0)
            (fun _ _ => 1)).1.1 * (2 - 1 + 1) +
           (get_initial_guess 2 2 1 1 (fun i j => if i = 0 ∧ j = 0 then 1 else 0)
              (fun _ _ => 1)).1.2 →
       (get_initial_guess 2 2 1 1 (fun i j => if i = 0 ∧ j = 0 then 1 else 0)
          (fun _ _ => 1)).2 r' c' <
         (get_initial_guess 2 2 1 1 (fun i j => if i = 0 ∧ j = 0 then 1 else 0)
            (fun _ _ => 1)).2
           (get_initial_guess 2 2 1 1 (fun i j => if i = 0 ∧ j = 0 then 1 else 0)
              (fun _ _ => 1)).1.1
           (get_initial_guess 2 2 1 1 (fun i j => if i = 0 ∧ j = 0 then 1 else 0)
              (fun _ _ => 1)).1.2)) :=
  ⟨⟨one_pos, by omega, one_pos, by omega⟩,
   get_initial_guess_first_rowmajor_max 2 2 1 1 _ _ one_pos (by omega) one_pos (by omega)⟩

end DIC
